import Mathlib

/-!
Verification development for the conversation-orchestration engine of the
`aios` backend (`src/backend/routers/chat_router.py`).

The definitions below are a shallow embedding of the Python source:

* the model backend (`llm.chat_stream` / `llm.chat`) is scripted: invocation
  number `i` of a turn yields the chunk list `scripts i` (and may raise at the
  end of its yielded chunks), exactly the observable behaviour of the lazy,
  one-pass stream contract of the spec;
* stateful persistence (`db.add`/`commit`) becomes an explicit list of
  persisted messages in the result;
* SSE `yield`s become an explicit list of `Event`s;
* Python exceptions become `Except` values / explicit outcome tags.
-/

namespace Aios

/-- A tool call emitted by the model backend (`chunk.tool_call`). -/
structure ToolCall where
  id : String
  name : String
  arguments : String
deriving Repr, DecidableEq

/-- One chunk of `llm.chat_stream` (`chunk.type` in the source). -/
inductive Chunk where
  | content (s : String)
  | reasoning (s : String)
  | toolCall (tc : Option ToolCall)
  | done
  | error (e : String)
deriving Repr, DecidableEq

/-- The observable behaviour of one `llm.chat_stream` invocation: the chunks it
yields in order, and `raises = some e` when the backend raises exception `e`
after yielding them (a mid-stream raise is a raise after a chunk list cut at
the raise point). -/
structure RoundScript where
  chunks : List Chunk
  raises : Option String
deriving Repr, DecidableEq

/-- SSE events yielded to the client by the chat generators. -/
inductive Event where
  | contentDelta (s : String)
  | reasoningDelta (s : String)
  | toolRound (round : Nat) (maxRounds : Nat)
  | toolCallRunning (id : String) (name : String) (args : String)
  | toolCallCompleted (id : String) (name : String) (args : String) (result : String)
  | agentStep (agentId : String) (agentName : String) (step : String)
  | messageComplete (content : String)
  | done
  | error (e : String)
deriving Repr, DecidableEq

/-- A persisted `Message` row (`role`, `content`, error recorded in
`metadata_json`, joined reasoning from `reasoning_json`, and the
`contributing_agents` metadata of route mode as (id, name) pairs). -/
structure Msg where
  role : String
  content : String
  metaError : Option String
  reasoning : Option String
  contributing : Option (List (String × String))
deriving Repr, DecidableEq

/-- How one `llm.chat_stream` consumption ended. -/
inductive StreamOutcome where
  | normal
  | errChunk (e : String)
  | raised (e : String)
deriving Repr, DecidableEq

/-- How a whole streaming turn ended. -/
inductive Terminal where
  | success
  | errChunk (e : String)
  | raised (e : String)
deriving Repr, DecidableEq

/-- Result of consuming one `llm.chat_stream` invocation inside
`_stream_response`: events yielded, updated `full_content`, updated
`reasoning_parts`, the `tool_calls_collected` of this round, and the outcome. -/
structure RunOut where
  events : List Event
  fullContent : String
  reasoning : List String
  collected : List ToolCall
  outcome : StreamOutcome
deriving Repr, DecidableEq

/-- The `async for chunk in llm.chat_stream(...)` loop body of
`_stream_response` (lines 610-634): accumulate content and reasoning, collect
tool calls, break on `done`, stop on an `error` chunk, and surface a raise of
the backend once its yielded chunks are exhausted. -/
def runStream : List Chunk → Option String → String → List String → RunOut
  | [], none, fc, rs => ⟨[], fc, rs, [], StreamOutcome.normal⟩
  | [], some e, fc, rs => ⟨[], fc, rs, [], StreamOutcome.raised e⟩
  | Chunk.content s :: cs, rv, fc, rs =>
      let r := runStream cs rv (fc ++ s) rs
      ⟨Event.contentDelta s :: r.events, r.fullContent, r.reasoning, r.collected, r.outcome⟩
  | Chunk.reasoning s :: cs, rv, fc, rs =>
      let r := runStream cs rv fc (rs ++ [s])
      ⟨Event.reasoningDelta s :: r.events, r.fullContent, r.reasoning, r.collected, r.outcome⟩
  | Chunk.toolCall none :: cs, rv, fc, rs => runStream cs rv fc rs
  | Chunk.toolCall (some tc) :: cs, rv, fc, rs =>
      let r := runStream cs rv fc rs
      ⟨r.events, r.fullContent, r.reasoning, tc :: r.collected, r.outcome⟩
  | Chunk.done :: _, _, fc, rs => ⟨[], fc, rs, [], StreamOutcome.normal⟩
  | Chunk.error e :: _, _, fc, rs => ⟨[], fc, rs, [], StreamOutcome.errChunk e⟩

/-- Result of executing the collected tool calls of one round (lines 660-693):
the `tool_call` events yielded, and `some e` when a tool execution raised
(aborting the turn into the outer `except` handler). -/
structure ExecOut where
  events : List Event
  raised : Option String
deriving Repr, DecidableEq

/-- Sequential execution of one round's collected tool calls: for each call,
yield `tool_call{running}`, run the tool executor, yield
`tool_call{completed}`; a raise inside the executor aborts the remainder. -/
def execToolCalls (execTool : String → String → Except String String) :
    List ToolCall → ExecOut
  | [] => ⟨[], none⟩
  | tc :: rest =>
    match execTool tc.name tc.arguments with
    | Except.ok result =>
        let r := execToolCalls execTool rest
        ⟨Event.toolCallRunning tc.id tc.name tc.arguments ::
           Event.toolCallCompleted tc.id tc.name tc.arguments result :: r.events,
         r.raised⟩
    | Except.error e => ⟨[Event.toolCallRunning tc.id tc.name tc.arguments], some e⟩

/-- `MAX_TOOL_ROUNDS` (chat_router.py line 30). -/
def MAX_TOOL_ROUNDS : Nat := 10

/-- Result of a whole `_stream_response` turn: events yielded, persisted
messages, the tool offering of each model-backend invocation in order, the
terminal classification, and the value of `full_content` at the moment the
turn terminated. -/
structure StreamResult where
  events : List Event
  persisted : List Msg
  calls : List (Option (List String))
  terminal : Terminal
  finalText : String
deriving Repr, DecidableEq

/-- The successfully persisted assistant message of `_stream_response`
(lines 706-718): joined reasoning parts recorded when non-empty. -/
def mkOkMsg (content : String) (reasoning : List String) : Msg :=
  ⟨"assistant", content, none,
   if reasoning = [] then none else some (String.join reasoning), none⟩

/-- The assistant message persisted by the `except` handler of
`_stream_response` (lines 737-747): partial content with the error recorded in
metadata. -/
def mkErrMsg (content : String) (e : String) : Msg :=
  ⟨"assistant", content, some e, none, none⟩

/-- The `for _round in range(MAX_TOOL_ROUNDS + 1)` loop of `_stream_response`
(lines 607-752), by remaining-round recursion. `fuel` is the number of
remaining loop iterations, `idx` the absolute round index, `fc`/`rs` the
current `full_content` / `reasoning_parts`. Each iteration makes one backend
invocation offering `tools`; exhausting the range falls through to the
final-message emission with whatever `full_content` holds. -/
def streamGo (execTool : String → String → Except String String)
    (scripts : Nat → RoundScript) (tools : Option (List String)) :
    Nat → Nat → String → List String → StreamResult
  | 0, _, fc, rs =>
      ⟨[Event.messageComplete fc, Event.done], [mkOkMsg fc rs], [], Terminal.success, fc⟩
  | fuel + 1, idx, fc, rs =>
    let sc := scripts idx
    let r := runStream sc.chunks sc.raises fc rs
    match r.outcome with
    | StreamOutcome.errChunk e =>
        ⟨r.events ++ [Event.error e], [], [tools], Terminal.errChunk e, r.fullContent⟩
    | StreamOutcome.raised e =>
        ⟨r.events ++ [Event.error e],
         if r.fullContent = "" then [] else [mkErrMsg r.fullContent e],
         [tools], Terminal.raised e, r.fullContent⟩
    | StreamOutcome.normal =>
      match r.collected with
      | [] =>
          ⟨r.events ++ [Event.messageComplete r.fullContent, Event.done],
           [mkOkMsg r.fullContent r.reasoning], [tools], Terminal.success, r.fullContent⟩
      | tc :: tcs =>
        let ex := execToolCalls execTool (tc :: tcs)
        match ex.raised with
        | some e =>
            ⟨r.events ++ Event.toolRound (idx + 1) MAX_TOOL_ROUNDS :: ex.events ++ [Event.error e],
             if r.fullContent = "" then [] else [mkErrMsg r.fullContent e],
             [tools], Terminal.raised e, r.fullContent⟩
        | none =>
            let rest := streamGo execTool scripts tools fuel (idx + 1) "" r.reasoning
            ⟨r.events ++ Event.toolRound (idx + 1) MAX_TOOL_ROUNDS :: ex.events ++ rest.events,
             rest.persisted, tools :: rest.calls, rest.terminal, rest.finalText⟩

/-- `_stream_response` (chat_router.py lines 600-752). -/
def streamResponse (execTool : String → String → Except String String)
    (scripts : Nat → RoundScript) (tools : Option (List String)) : StreamResult :=
  streamGo execTool scripts tools (MAX_TOOL_ROUNDS + 1) 0 "" []

/-! ## The non-streaming tool loop of the team modes (`_chat_with_tools`) -/

/-- One non-streaming `llm.chat` response (`content`, `tool_calls`). -/
structure ChatResponse where
  content : String
  toolCalls : List ToolCall
deriving Repr, DecidableEq

/-- Result of `_chat_with_tools`: the returned text (or the propagated
exception), and the tool offering of each model-backend invocation in order. -/
structure ChatToolsResult where
  result : Except String String
  calls : List (Option (List String))
deriving Repr

/-- Sequential execution of a response's tool calls inside `_chat_with_tools`
(lines 869-875); a raise propagates. -/
def execToolsSeq (execTool : String → String → Except String String) :
    List ToolCall → Except String Unit
  | [] => Except.ok ()
  | tc :: rest =>
    match execTool tc.name tc.arguments with
    | Except.ok _ => execToolsSeq execTool rest
    | Except.error e => Except.error e

/-- The `for _round in range(MAX_TOOL_ROUNDS)` loop of `_chat_with_tools`
(lines 857-878): each iteration is one `llm.chat` call offering `tools`; a
tool-call-free response returns its content; after the range is exhausted one
final call is made with no tools. The backend is scripted by invocation
index; `Except.error` scripts a backend raise, which propagates. -/
def chatWithToolsGo (execTool : String → String → Except String String)
    (script : Nat → Except String ChatResponse) (tools : Option (List String)) :
    Nat → Nat → ChatToolsResult
  | 0, idx =>
    match script idx with
    | Except.ok resp => ⟨Except.ok resp.content, [none]⟩
    | Except.error e => ⟨Except.error e, [none]⟩
  | fuel + 1, idx =>
    match script idx with
    | Except.error e => ⟨Except.error e, [tools]⟩
    | Except.ok resp =>
      match resp.toolCalls with
      | [] => ⟨Except.ok resp.content, [tools]⟩
      | tc :: tcs =>
        match execToolsSeq execTool (tc :: tcs) with
        | Except.error e => ⟨Except.error e, [tools]⟩
        | Except.ok _ =>
          let r := chatWithToolsGo execTool script tools fuel (idx + 1)
          ⟨r.result, tools :: r.calls⟩

/-- `_chat_with_tools` (chat_router.py lines 857-878). -/
def chatWithTools (execTool : String → String → Except String String)
    (script : Nat → Except String ChatResponse) (tools : Option (List String)) :
    ChatToolsResult :=
  chatWithToolsGo execTool script tools MAX_TOOL_ROUNDS 0

/-! ## MCP connections and the tool execution router -/

/-- An open MCP connection (`MCPConnection`): its advertised server name, the
tools discovered at connect time, and its tool-call entry point.
`callTool` is modelled from the spec: `mcp_client.py` is not under `src/`;
the external interface section of the spec gives the connection contract
`callTool(name, args) -> text`, a total text-returning call. -/
structure MCPConnection where
  server_name : String
  tools : List String
  callTool : String → String → String

/-- Python `dict` insertion for `mcp_connections[conn.server_name] = conn`:
overwriting an existing key keeps its position, a new key is appended. -/
def dictInsert (m : List (String × MCPConnection)) (k : String) (v : MCPConnection) :
    List (String × MCPConnection) :=
  if m.any (fun p => p.1 == k) then
    m.map (fun p => if p.1 == k then (k, v) else p)
  else
    m ++ [(k, v)]

/-- The loop body of `_connect_mcp_servers` (lines 285-296) with an explicit
accumulator: each config either connects (an `Except.ok` outcome of
`connect_mcp_server`, modelled from the spec since `mcp_client.py` is not
under `src/`) and contributes its connection and discovered tools, or fails
and is logged and skipped. -/
def connectGo (acc : List (String × MCPConnection)) (tls : List String) :
    List (Except String MCPConnection) → List (String × MCPConnection) × List String
  | [] => (acc, tls)
  | Except.ok c :: rest => connectGo (dictInsert acc c.server_name c) (tls ++ c.tools) rest
  | Except.error _ :: rest => connectGo acc tls rest

/-- `_connect_mcp_servers` (chat_router.py lines 285-296). -/
def connectMcpServers (cfgs : List (Except String MCPConnection)) :
    List (String × MCPConnection) × List String :=
  connectGo [] [] cfgs

/-- `_merge_tools` (chat_router.py lines 238-242). -/
def mergeTools (native : Option (List String)) (mcp : List String) :
    Option (List String) :=
  let all := (match native with | none => [] | some ts => ts) ++ mcp
  match all with
  | [] => none
  | t :: ts => some (t :: ts)

/-- The behaviour of `exec`-ing a python tool's code string and calling its
`handler(arguments)` (`_execute_python_tool`, lines 37-48): a handler call on
the given arguments may raise, return a dict/list (serialized by
`json.dumps`), or return another value (stringified by `str`). -/
inductive PyOutcome where
  | raises (e : String)
  | dictOrList (s : String)
  | other (s : String)

/-- The code string of a python tool: it may raise at `exec` time, define no
`handler`, or define a handler with the given call behaviour. -/
inductive PyBehavior where
  | broken (e : String)
  | noHandler
  | handler (f : String → PyOutcome)

/-- A parsed `handler_config`: the python `code` entry (absent or empty is
falsy), and the `url` / `method` entries of an http handler. -/
structure HandlerConfig where
  code : Option PyBehavior
  url : String
  method : String

/-- The stored JSON text of a `handler_config` column, observed through
Python truthiness and `json.loads`: absent or empty (falsy, parsed as the
empty config), a non-empty string on which `json.loads` raises, or a
non-empty string parsing to a handler config. -/
inductive ConfigSrc where
  | absent
  | malformed
  | parsed (c : HandlerConfig)

/-- A tool-call `arguments` JSON string observed through `json.loads`:
it either fails to parse or parses to an opaque payload `v`. -/
inductive JsonSrc where
  | malformed
  | parsed (v : String)
deriving Repr, DecidableEq

/-- A `tool_definitions` row as read by `_execute_tool`. -/
structure ToolDef where
  name : String
  is_active : Bool
  handler_type : String
  handler_config : ConfigSrc

/-- Serialized `json.dumps` of a one-key error dict, the structured textual
error payload the router returns on every handled failure. -/
def jsonError (msg : String) : String :=
  "\x7b\"error\": \"" ++ msg ++ "\"\x7d"

/-- The argument parsing of `_execute_tool` (lines 53-56): a falsy
`arguments_str` or a `json.JSONDecodeError` both yield the empty dict. -/
def parseArgs : Option JsonSrc → String
  | none => "\x7b\x7d"
  | some JsonSrc.malformed => "\x7b\x7d"
  | some (JsonSrc.parsed v) => v

/-- `_execute_python_tool` (chat_router.py lines 37-48): every exception is
caught and converted to an error payload; dict/list results are serialized,
others stringified. -/
def execPythonTool (b : PyBehavior) (args : String) : String :=
  match b with
  | PyBehavior.broken e => jsonError e
  | PyBehavior.noHandler => jsonError ("No \x27handler\x27 function found in tool code")
  | PyBehavior.handler f =>
    match f args with
    | PyOutcome.raises e => jsonError e
    | PyOutcome.dictOrList s => s
    | PyOutcome.other s => s

/-- Python `str.upper()` restricted to its use on `method`. -/
def pyUpper (s : String) : String := String.mk (s.toList.map Char.toUpper)

/-- `_execute_tool` (chat_router.py lines 51-91). The native catalogue `db` is
the list of tool rows; lookup is by exact name among active tools. `httpWorld`
models the outcome of the outbound `httpx` request at the configured url and
method (raise or response text). The returned `Except.error` is a Python
exception propagating to the caller: note `json.loads(tool_def.handler_config)`
(lines 67 and 75) runs outside any `try`. -/
def executeToolSql (db : List ToolDef)
    (httpWorld : String → String → Except String String)
    (toolName : String) (argumentsStr : Option JsonSrc) : Except String String :=
  let args := parseArgs argumentsStr
  match db.find? (fun t => t.name == toolName && t.is_active) with
  | none => Except.ok (jsonError ("Tool \x27" ++ toolName ++ "\x27 not found"))
  | some tool =>
    if tool.handler_type == "python" then
      match tool.handler_config with
      | ConfigSrc.malformed => Except.error ("JSONDecodeError")
      | ConfigSrc.absent => Except.ok (jsonError ("No code configured for this tool"))
      | ConfigSrc.parsed cfg =>
        match cfg.code with
        | none => Except.ok (jsonError ("No code configured for this tool"))
        | some b => Except.ok (execPythonTool b args)
    else if tool.handler_type == "http" then
      match tool.handler_config with
      | ConfigSrc.malformed => Except.error ("JSONDecodeError")
      | ConfigSrc.absent => Except.ok (jsonError ("No URL configured for this tool"))
      | ConfigSrc.parsed cfg =>
        if cfg.url == "" then
          Except.ok (jsonError ("No URL configured for this tool"))
        else
          match httpWorld cfg.url (pyUpper cfg.method) with
          | Except.ok text => Except.ok text
          | Except.error e => Except.ok (jsonError ("HTTP request failed: " ++ e))
    else
      Except.ok (jsonError ("Unsupported handler type: " ++ tool.handler_type))

/-- Split a character list at the first occurrence of the `::` separator. -/
def splitOnSep : List Char → Option (List Char × List Char)
  | [] => none
  | ':' :: ':' :: rest => some ([], rest)
  | c :: rest =>
    match splitOnSep rest with
    | some (a, b) => some (c :: a, b)
    | none => none

/-- Modelled from the spec: `parse_mcp_tool_name` lives in `mcp_client.py`,
which is not under `src/`. The spec's data model names externally hosted tools
"namespaced as `<server>::<tool>`", so a name containing the separator parses
into the (server, tool) pair split at its first occurrence and any other name
does not parse. -/
def parseMcpToolName (name : String) : Option (String × String) :=
  match splitOnSep name.toList with
  | some (a, b) => some (String.mk a, String.mk b)
  | none => none

/-- `_execute_mcp_or_native_tool` (chat_router.py lines 245-262): a namespaced
name routes to the connection map (error payload when that server is not
connected), any other name routes to the native executor. -/
def execMcpOrNative (conns : List (String × MCPConnection)) (db : List ToolDef)
    (httpWorld : String → String → Except String String)
    (tcName : String) (tcArgs : Option JsonSrc) : Except String String :=
  match parseMcpToolName tcName with
  | some (server, orig) =>
    match conns.lookup server with
    | some conn => Except.ok (conn.callTool orig (parseArgs tcArgs))
    | none => Except.ok (jsonError ("MCP server \x27" ++ server ++ "\x27 not connected"))
  | none => executeToolSql db httpWorld tcName tcArgs

/-- `_stream_response_with_mcp` (chat_router.py lines 755-837): connect to the
configured servers (failures skipped), merge the surviving servers' tools with
the native ones, and run the same streaming loop with
`_execute_mcp_or_native_tool` as the tool executor. -/
def streamWithMcp (db : List ToolDef)
    (httpWorld : String → String → Except String String)
    (scripts : Nat → RoundScript) (native : Option (List String))
    (cfgs : List (Except String MCPConnection))
    (args : String → Option JsonSrc) : StreamResult :=
  let c := connectMcpServers cfgs
  streamGo (fun n a => execMcpOrNative c.1 db httpWorld n (args a)) scripts
    (mergeTools native c.2) (MAX_TOOL_ROUNDS + 1) 0 "" []

/-! ## Team orchestration -/

/-- The identity of a team member agent as used by the orchestrators. -/
structure AgentInfo where
  id : String
  name : String
deriving Repr, DecidableEq

/-- Lower-casing of Python `str.lower()` on the character level. -/
def lowerStr (s : String) : String := String.mk (s.toList.map Char.toLower)

/-- Python whitespace for `str.strip()`. -/
def isSpaceChar (c : Char) : Bool :=
  c == ' ' || c == '\t' || c == '\n' || c == '\r' || c == '\x0b' || c == '\x0c'

/-- Python `str.strip()`: drop leading and trailing whitespace. -/
def pyStrip (s : String) : String :=
  String.mk (((s.toList.dropWhile isSpaceChar).reverse.dropWhile isSpaceChar).reverse)

/-- Whether `needle` is a leading segment of `hay`. -/
def strStarts : List Char → List Char → Bool
  | _, [] => true
  | [], _ :: _ => false
  | h :: t, a :: b => h == a && strStarts t b

/-- Python substring containment `needle in hay` on character lists. -/
def strHas : List Char → List Char → Bool
  | [], needle => needle.isEmpty
  | h :: t, needle => strStarts (h :: t) needle || strHas t needle

/-- Python `needle in hay` on strings. -/
def strContains (hay needle : String) : Bool :=
  strHas hay.toList needle.toList

/-- Python `s.startswith(p)` on strings. -/
def pyStartsWith (s p : String) : Bool := strStarts s.toList p.toList

/-- The member-matching test of coordinate mode (lines 976-979):
`ag.name.lower() in router_answer.lower() or router_answer.lower() in
ag.name.lower()`. -/
def agentMatches (answer : String) (a : AgentInfo) : Bool :=
  strContains (lowerStr answer) (lowerStr a.name) ||
    strContains (lowerStr a.name) (lowerStr answer)

/-- The agent selection of `_team_chat_coordinate` (lines 973-983): strip the
router's reply, take the first declared member it matches, and fall back to
the first member when none matches. -/
def selectAgent (ms : List AgentInfo) (rawAnswer : String) : Option AgentInfo :=
  let answer := pyStrip rawAnswer
  match ms.find? (agentMatches answer) with
  | some a => some a
  | none => ms.head?

/-! ## Context assembly (`ContextAssembler`) -/

/-- One part of a multimodal user message (`content_parts`). -/
inductive ContentPart where
  | text (s : String)
  | imageUrl (url : String)
deriving Repr, DecidableEq

/-- The `content` of an `LLMMessage`: plain text or a part list. -/
inductive LLMContent where
  | str (s : String)
  | parts (ps : List ContentPart)
deriving Repr, DecidableEq

/-- An `LLMMessage` handed to the model backend. -/
structure LLMMessage where
  role : String
  content : LLMContent
deriving Repr, DecidableEq

/-- A persisted prior turn as read back by `_chat_sqlite` (role and text). -/
structure PastMsg where
  role : String
  content : String
deriving Repr, DecidableEq

/-- One result of the retrieval collaborator's `search`: chunk text and the
`filename` entry of its metadata (absent when the chunk was indexed without
one). -/
structure RagResult where
  text : String
  filename : Option String
deriving Repr, DecidableEq

/-- The chunk-tagging of `_build_user_llm_message` (line 427):
`[From <filename>]:\n<text>` with the `document` fallback. -/
def taggedChunk (r : RagResult) : String :=
  "[From " ++ r.filename.getD ("document") ++ "]:\n" ++ r.text

/-- Python `"\n\n".join(l)`. -/
def joinChunks : List String → String
  | [] => ""
  | [s] => s
  | s :: t :: rest => s ++ "\n\n" ++ joinChunks (t :: rest)

/-- The retrieval-context block of `_build_user_llm_message` (lines 422-430):
empty when the session has no index or the search returns nothing, otherwise a
labeled block of the top-5 results, each tagged with its source filename.
`search` is the retrieval collaborator, modelled from the spec
(`rag_service.py` is not under `src/`): `search(sessionId, query, topK)`
returns the ordered most-relevant chunks. -/
def ragContextFor (hasIndex : Bool) (search : String → Nat → List RagResult)
    (q : String) : String :=
  if hasIndex then
    match search q 5 with
    | [] => ""
    | r :: rs =>
      "\n\nRelevant context from uploaded documents:\n" ++
        joinChunks ((r :: rs).map taggedChunk)
  else ""

/-- `_build_user_llm_message` (chat_router.py lines 420-439). -/
def buildUserLlmMessage (hasIndex : Bool) (search : String → Nat → List RagResult)
    (messageText : String) (imageParts : List ContentPart) : LLMMessage :=
  let ragContext := ragContextFor hasIndex search messageText
  match imageParts with
  | p :: ps => ⟨"user", LLMContent.parts (ContentPart.text (messageText ++ ragContext) :: p :: ps)⟩
  | [] =>
    if ragContext == "" then ⟨"user", LLMContent.str messageText⟩
    else ⟨"user", LLMContent.str (messageText ++ ragContext)⟩

/-- An uploaded attachment as observed by `_process_attachments_sqlite`:
`data` is the data URI (`none` when absent or empty, both falsy), and
`decodes` is the outcome of `FileStorageService.decode_data_uri`, modelled
from the spec (`file_storage.py` is not under `src/`): decoding either
succeeds or raises, in which case the attachment is skipped. -/
structure Attachment where
  filename : String
  mediaType : String
  data : Option String
  decodes : Bool
deriving Repr, DecidableEq

/-- `_classify_file` (chat_router.py lines 303-307). -/
def classifyFile (mediaType : String) (_filename : String) : String :=
  if pyStartsWith mediaType ("image/") then "image" else "document"

/-- The `image_content_parts` built by `_process_attachments_sqlite`
(lines 310-362): one inline media part per decodable image attachment, in
order. -/
def processAttachmentsImages (atts : List Attachment) : List ContentPart :=
  atts.filterMap (fun att =>
    match att.data with
    | none => none
    | some uri =>
      if att.decodes then
        if classifyFile att.mediaType att.filename == "image" then
          some (ContentPart.imageUrl uri)
        else none
      else none)

/-- The history filtering of `_chat_sqlite` (lines 470-473): prior persisted
turns are replayed iff their role is `user` or `assistant`; `past` is given in
`created_at` ascending order as produced by the query. -/
def filterHistory (past : List PastMsg) : List LLMMessage :=
  past.filterMap (fun m =>
    if m.role == "user" || m.role == "assistant" then
      some ⟨m.role, LLMContent.str m.content⟩
    else none)

/-- The model-ready message list assembled by `_chat_sqlite` (lines 465-497):
the filtered prior turns followed by the enriched current user turn. -/
def assembleMessages (past : List PastMsg) (current : String)
    (atts : List Attachment) (hasIndex : Bool)
    (search : String → Nat → List RagResult) : List LLMMessage :=
  filterHistory past ++
    [buildUserLlmMessage hasIndex search current (processAttachmentsImages atts)]

/-! ## Route and collaborate orchestrators -/

/-- The per-member outcome of `get_agent_response` inside `_team_chat_route`:
the member's non-streaming tool-loop answer, or the exception captured for it
by `asyncio.gather(..., return_exceptions=True)`. -/
abbrev MemberOutcome := AgentInfo × Except String String

/-- The successful member responses collected by `_team_chat_route`
(lines 1039-1053), in declared member order, exceptions skipped. -/
def successResponses (members : List MemberOutcome) : List (AgentInfo × String) :=
  members.filterMap (fun m =>
    match m.2 with
    | Except.ok c => some (m.1, c)
    | Except.error _ => none)

/-- The synthesizer message list of `_team_chat_route` (lines 1064-1076): the
original user text, then every successful member's output under a per-agent
header. -/
def routeSynthMessages (userMessage : String) (resps : List (AgentInfo × String)) :
    List LLMMessage :=
  let responsesText :=
    joinChunks (resps.map (fun r => "**" ++ r.1.name ++ ":**\n" ++ r.2))
  [⟨"user", LLMContent.str userMessage⟩,
   ⟨"user", LLMContent.str ("Here are the responses from different specialists:\n\n" ++ responsesText)⟩]

/-- Result of a team-orchestrator turn: its event sequence, the messages it
persisted, and (for route mode) the message list handed to the synthesizer,
`none` when synthesis was never reached. -/
structure OrchResult where
  events : List Event
  persisted : List Msg
  synthInput : Option (List LLMMessage)
deriving Repr, DecidableEq

/-- The synthesizer streaming loop of `_team_chat_route` (lines 1084-1093):
only `content`, `error` and `done` chunks are handled; returns the events,
the accumulated text and the outcome. -/
def runSynthStream : List Chunk → Option String → String →
    List Event × String × StreamOutcome
  | [], none, fc => ([], fc, StreamOutcome.normal)
  | [], some e, fc => ([], fc, StreamOutcome.raised e)
  | Chunk.content s :: cs, rv, fc =>
    let r := runSynthStream cs rv (fc ++ s)
    (Event.contentDelta s :: r.1, r.2)
  | Chunk.reasoning _ :: cs, rv, fc => runSynthStream cs rv fc
  | Chunk.toolCall _ :: cs, rv, fc => runSynthStream cs rv fc
  | Chunk.done :: _, _, fc => ([], fc, StreamOutcome.normal)
  | Chunk.error e :: _, _, fc => ([], fc, StreamOutcome.errChunk e)

/-- `_team_chat_route` (chat_router.py lines 1015-1130). Member loops are
modelled by their captured outcomes (the fan-out shares no mutable state);
`synth` scripts the synthesizer's single streamed invocation. The persisted
message's metadata records the contributing agents. -/
def routeChat (userMessage : String) (members : List MemberOutcome)
    (synth : RoundScript) : OrchResult :=
  let steps :=
    Event.agentStep ("") ("Router") ("routing") ::
      (successResponses members).map (fun r => Event.agentStep r.1.id r.1.name ("completed"))
  match successResponses members with
  | [] => ⟨steps ++ [Event.error ("All agents failed to respond")], [], none⟩
  | r0 :: rest =>
    let resps := r0 :: rest
    let sm := routeSynthMessages userMessage resps
    let steps2 := steps ++ [Event.agentStep ("") ("Synthesizer") ("synthesizing")]
    let s := runSynthStream synth.chunks synth.raises ""
    match s.2.2 with
    | StreamOutcome.errChunk e => ⟨steps2 ++ s.1 ++ [Event.error e], [], some sm⟩
    | StreamOutcome.raised e => ⟨steps2 ++ s.1 ++ [Event.error e], [], some sm⟩
    | StreamOutcome.normal =>
      ⟨steps2 ++ s.1 ++ [Event.messageComplete s.2.1, Event.done],
       [⟨"assistant", s.2.1, none, none, some (resps.map (fun r => (r.1.id, r.1.name)))⟩],
       some sm⟩

/-- `_team_chat_collaborate` (chat_router.py lines 1133-1193). Non-final
members run the non-streaming tool loop, modelled by their outcomes; a raise
aborts the turn through the outer `except` into a terminal `error` event. The
final member streams through `_stream_response`, whose result is the only one
persisted. -/
def collabChat (nonFinal : List MemberOutcome) (finalAgent : AgentInfo)
    (execTool : String → String → Except String String)
    (scripts : Nat → RoundScript) (tools : Option (List String)) : OrchResult :=
  match nonFinal with
  | [] =>
    let s := streamResponse execTool scripts tools
    ⟨Event.agentStep finalAgent.id finalAgent.name ("responding") :: s.events,
     s.persisted, none⟩
  | (a, Except.error e) :: _ =>
    ⟨[Event.agentStep a.id a.name ("responding"), Event.error e], [], none⟩
  | (a, Except.ok _) :: rest =>
    let r := collabChat rest finalAgent execTool scripts tools
    ⟨Event.agentStep a.id a.name ("responding") :: r.events, r.persisted, r.synthInput⟩

/-! ## The non-streaming single-agent path -/

/-- Result of the non-streaming branch of `_chat_sqlite`: the persisted
message, the number of model-backend calls, and the tool invocations made. -/
structure NonStreamResult where
  persisted : List Msg
  backendCalls : Nat
  toolExecs : List ToolCall
deriving Repr, DecidableEq

/-- The `request.stream == False` branch of `_chat_sqlite` (lines 575-597):
one `llm.chat` call, whose `content` is persisted verbatim; the response's
tool calls are never executed and the tool executor is never consulted. -/
def chatNonStreaming (script : Nat → ChatResponse)
    (_execTool : String → String → Except String String) : NonStreamResult :=
  let response := script 0
  ⟨[⟨"assistant", response.content, none, none, none⟩], 1, []⟩

/-! ## Observational predicates used by the theorems -/

/-- Progress events: everything except the terminal `message_complete`,
`done` and `error` markers. -/
def isProgress : Event → Bool
  | Event.messageComplete _ => false
  | Event.done => false
  | Event.error _ => false
  | _ => true

/-- The event-stream contract of one turn: either the success shape — progress
events, then `message_complete` immediately followed by `done` — or the error
shape — progress events, then a terminal `error`. In particular every delta /
tool event precedes `message_complete`, `done` appears exactly immediately
after a `message_complete`, and nothing follows an `error`. -/
def eventOrderOK (evs : List Event) : Prop :=
  (∃ pre content, evs = pre ++ [Event.messageComplete content, Event.done] ∧
      pre.all isProgress = true) ∨
  (∃ pre e, evs = pre ++ [Event.error e] ∧ pre.all isProgress = true)

/-- Invariant of one streaming-loop result, parameterized by the remaining
round budget: the backend is invoked at most `fuel` times, always with the
same tool offering, and the result is in one of the three terminal shapes. -/
def StreamGoOK (tools : Option (List String)) (fuel : Nat) (r : StreamResult) : Prop :=
  (r.calls.length ≤ fuel ∧ ∀ c ∈ r.calls, c = tools) ∧
  ((∃ pre content rsn, r.terminal = Terminal.success ∧
      r.events = pre ++ [Event.messageComplete content, Event.done] ∧
      pre.all isProgress = true ∧ r.persisted = [mkOkMsg content rsn]) ∨
   (∃ pre e, r.terminal = Terminal.errChunk e ∧
      r.events = pre ++ [Event.error e] ∧ pre.all isProgress = true ∧
      r.persisted = []) ∨
   (∃ pre e, r.terminal = Terminal.raised e ∧
      r.events = pre ++ [Event.error e] ∧ pre.all isProgress = true ∧
      r.persisted = (if r.finalText = "" then [] else [mkErrMsg r.finalText e])))

/-- Substring relation on strings, by explicit decomposition. -/
def substringOf (needle hay : String) : Prop :=
  ∃ x y, hay = x ++ needle ++ y

/-- Whether a member outcome is a success (not a captured exception). -/
def isOkB (r : Except String String) : Bool :=
  match r with
  | Except.ok _ => true
  | Except.error _ => false

/-- Whether a connect attempt succeeded. -/
def isOkConn (r : Except String MCPConnection) : Bool :=
  match r with
  | Except.ok _ => true
  | Except.error _ => false

/-- Whether a stored handler config is the malformed (unparseable) case. -/
def configMalformed : ConfigSrc → Bool
  | ConfigSrc.malformed => true
  | _ => false

/-- The leading text of an assembled user message (the plain text, or the
first text part of a multimodal part list). -/
def userText (m : LLMMessage) : String :=
  match m.content with
  | LLMContent.str s => s
  | LLMContent.parts (ContentPart.text s :: _) => s
  | LLMContent.parts _ => ""

end Aios

namespace Aios

/-! ## Lemmas and theorems -/

theorem runStream_all_progress :
    ∀ (chunks : List Chunk) (rv : Option String) (fc : String) (rs : List String),
      ((runStream chunks rv fc rs).events.all isProgress) = true := by
  intro chunks
  induction chunks with
  | nil => intro rv fc rs; cases rv <;> simp [runStream]
  | cons c cs ih =>
    intro rv fc rs
    cases c with
    | content s => simp [runStream, isProgress, ih]
    | reasoning s => simp [runStream, isProgress, ih]
    | toolCall tc => cases tc <;> simp [runStream, ih]
    | done => simp [runStream]
    | error e => simp [runStream]

theorem execToolCalls_all_progress
    (execTool : String → String → Except String String) :
    ∀ (tcs : List ToolCall),
      ((execToolCalls execTool tcs).events.all isProgress) = true := by
  intro tcs
  induction tcs with
  | nil => simp [execToolCalls]
  | cons tc rest ih =>
    cases h : execTool tc.name tc.arguments <;>
      simp [execToolCalls, h, isProgress, ih]

theorem streamGo_spec (execTool : String → String → Except String String)
    (scripts : Nat → RoundScript) (tools : Option (List String)) :
    ∀ (fuel idx : Nat) (fc : String) (rs : List String),
      StreamGoOK tools fuel (streamGo execTool scripts tools fuel idx fc rs) := by
  intro fuel
  induction fuel with
  | zero =>
    intro idx fc rs
    refine ⟨by simp [streamGo], Or.inl ⟨[], fc, rs, ?_, ?_, ?_, ?_⟩⟩ <;> simp [streamGo]
  | succ fuel ih =>
    intro idx fc rs
    rw [streamGo]
    have hprog := runStream_all_progress (scripts idx).chunks (scripts idx).raises fc rs
    cases houtcome : (runStream (scripts idx).chunks (scripts idx).raises fc rs).outcome with
    | errChunk e =>
      simp only [houtcome]
      exact ⟨by simp, Or.inr (Or.inl ⟨_, e, rfl, rfl, hprog, rfl⟩)⟩
    | raised e =>
      simp only [houtcome]
      exact ⟨by simp, Or.inr (Or.inr ⟨_, e, rfl, rfl, hprog, rfl⟩)⟩
    | normal =>
      simp only [houtcome]
      cases hcollected : (runStream (scripts idx).chunks (scripts idx).raises fc rs).collected with
      | nil =>
        simp only [hcollected]
        exact ⟨by simp, Or.inl ⟨_, _, _, rfl, rfl, hprog, rfl⟩⟩
      | cons tc tcs =>
        simp only [hcollected]
        have hexprog := execToolCalls_all_progress execTool (tc :: tcs)
        cases hraised : (execToolCalls execTool (tc :: tcs)).raised with
        | some e =>
          simp only [hraised]
          refine ⟨by simp, Or.inr (Or.inr
            ⟨(runStream (scripts idx).chunks (scripts idx).raises fc rs).events ++
               Event.toolRound (idx + 1) MAX_TOOL_ROUNDS ::
                 (execToolCalls execTool (tc :: tcs)).events, e, rfl, ?_, ?_, rfl⟩)⟩
          · simp
          · simp [hprog, hexprog, isProgress]
        | none =>
          simp only [hraised]
          obtain ⟨⟨hlen, hcalls⟩, hshape⟩ := ih (idx + 1) "" (runStream (scripts idx).chunks (scripts idx).raises fc rs).reasoning
          constructor
          · constructor
            · simpa using Nat.succ_le_succ hlen
            · intro c hc
              simp only [List.mem_cons] at hc
              rcases hc with rfl | hc
              · rfl
              · exact hcalls c hc
          · rcases hshape with ⟨pre, content, rsn, hterm, hev, hpre, hpers⟩ |
              ⟨pre, e, hterm, hev, hpre, hpers⟩ | ⟨pre, e, hterm, hev, hpre, hpers⟩
            · refine Or.inl ⟨(runStream (scripts idx).chunks (scripts idx).raises fc rs).events ++
                Event.toolRound (idx + 1) MAX_TOOL_ROUNDS ::
                (execToolCalls execTool (tc :: tcs)).events ++ pre, content, rsn, hterm, ?_, ?_, hpers⟩
              · simp [hev]
              · simp [hprog, hexprog, hpre, isProgress]
            · refine Or.inr (Or.inl ⟨(runStream (scripts idx).chunks (scripts idx).raises fc rs).events ++
                Event.toolRound (idx + 1) MAX_TOOL_ROUNDS ::
                (execToolCalls execTool (tc :: tcs)).events ++ pre, e, hterm, ?_, ?_, hpers⟩)
              · simp [hev]
              · simp [hprog, hexprog, hpre, isProgress]
            · refine Or.inr (Or.inr ⟨(runStream (scripts idx).chunks (scripts idx).raises fc rs).events ++
                Event.toolRound (idx + 1) MAX_TOOL_ROUNDS ::
                (execToolCalls execTool (tc :: tcs)).events ++ pre, e, hterm, ?_, ?_, hpers⟩)
              · simp [hev]
              · simp [hprog, hexprog, hpre, isProgress]

theorem streamResponse_spec (execTool : String → String → Except String String)
    (scripts : Nat → RoundScript) (tools : Option (List String)) :
    StreamGoOK tools (MAX_TOOL_ROUNDS + 1) (streamResponse execTool scripts tools) :=
  streamGo_spec execTool scripts tools (MAX_TOOL_ROUNDS + 1) 0 "" []

theorem runSynthStream_all_progress :
    ∀ (chunks : List Chunk) (rv : Option String) (fc : String),
      ((runSynthStream chunks rv fc).1.all isProgress) = true := by
  intro chunks
  induction chunks with
  | nil => intro rv fc; cases rv <;> simp [runSynthStream]
  | cons c cs ih =>
    intro rv fc
    cases c with
    | content s => simp [runSynthStream, isProgress, ih]
    | reasoning s => simp [runSynthStream, ih]
    | toolCall tc => simp [runSynthStream, ih]
    | done => simp [runSynthStream]
    | error e => simp [runSynthStream]

theorem agentSteps_all_progress (l : List (AgentInfo × String)) :
    ((l.map (fun r => Event.agentStep r.1.id r.1.name ("completed"))).all isProgress) = true := by
  induction l with
  | nil => rfl
  | cons x xs ih => simp [isProgress, ih]

theorem routeChat_spec (u : String) (members : List MemberOutcome) (synth : RoundScript) :
    (∃ pre e, (routeChat u members synth).events = pre ++ [Event.error e] ∧
        pre.all isProgress = true ∧ (routeChat u members synth).persisted = []) ∨
    (∃ pre c, (routeChat u members synth).events = pre ++ [Event.messageComplete c, Event.done] ∧
        pre.all isProgress = true ∧
        (routeChat u members synth).persisted =
          [⟨"assistant", c, none, none,
            some ((successResponses members).map (fun r => (r.1.id, r.1.name)))⟩]) := by
  rw [routeChat]
  cases hs : successResponses members with
  | nil =>
    refine Or.inl ⟨_, _, rfl, ?_, rfl⟩
    simp [isProgress]
  | cons r0 rest =>
    have hp := runSynthStream_all_progress synth.chunks synth.raises ""
    cases ho : (runSynthStream synth.chunks synth.raises "").2.2 with
    | errChunk e =>
      simp only [ho]
      refine Or.inl ⟨Event.agentStep ("") ("Router") ("routing") ::
        Event.agentStep r0.1.id r0.1.name ("completed") ::
          (List.map (fun r => Event.agentStep r.1.id r.1.name ("completed")) rest ++
            Event.agentStep ("") ("Synthesizer") ("synthesizing") ::
              (runSynthStream synth.chunks synth.raises "").1), e, ?_, ?_, ?_⟩
      · simp
      · simpa [isProgress, List.all_append, hp] using agentSteps_all_progress rest
      · simp
    | raised e =>
      simp only [ho]
      refine Or.inl ⟨Event.agentStep ("") ("Router") ("routing") ::
        Event.agentStep r0.1.id r0.1.name ("completed") ::
          (List.map (fun r => Event.agentStep r.1.id r.1.name ("completed")) rest ++
            Event.agentStep ("") ("Synthesizer") ("synthesizing") ::
              (runSynthStream synth.chunks synth.raises "").1), e, ?_, ?_, ?_⟩
      · simp
      · simpa [isProgress, List.all_append, hp] using agentSteps_all_progress rest
      · simp
    | normal =>
      simp only [ho]
      refine Or.inr ⟨Event.agentStep ("") ("Router") ("routing") ::
        Event.agentStep r0.1.id r0.1.name ("completed") ::
          (List.map (fun r => Event.agentStep r.1.id r.1.name ("completed")) rest ++
            Event.agentStep ("") ("Synthesizer") ("synthesizing") ::
              (runSynthStream synth.chunks synth.raises "").1),
        (runSynthStream synth.chunks synth.raises "").2.1, ?_, ?_, ?_⟩
      · simp
      · simpa [isProgress, List.all_append, hp] using agentSteps_all_progress rest
      · rfl

theorem collabChat_spec (finalAgent : AgentInfo)
    (execTool : String → String → Except String String)
    (scripts : Nat → RoundScript) (tools : Option (List String)) :
    ∀ (nonFinal : List MemberOutcome),
      (∃ pre e, (collabChat nonFinal finalAgent execTool scripts tools).events =
          pre ++ [Event.error e] ∧ pre.all isProgress = true) ∨
      (∃ pre c rsn, (collabChat nonFinal finalAgent execTool scripts tools).events =
          pre ++ [Event.messageComplete c, Event.done] ∧ pre.all isProgress = true ∧
          (collabChat nonFinal finalAgent execTool scripts tools).persisted = [mkOkMsg c rsn]) := by
  intro nonFinal
  induction nonFinal with
  | nil =>
    obtain ⟨-, hshape⟩ := streamResponse_spec execTool scripts tools
    rcases hshape with ⟨pre, c, rsn, -, hev, hpre, hpers⟩ |
        ⟨pre, e, -, hev, hpre, -⟩ | ⟨pre, e, -, hev, hpre, -⟩
    · refine Or.inr ⟨Event.agentStep finalAgent.id finalAgent.name ("responding") :: pre,
        c, rsn, ?_, ?_, ?_⟩ <;>
        simp [collabChat, hev, hpre, hpers, isProgress]
    · refine Or.inl ⟨Event.agentStep finalAgent.id finalAgent.name ("responding") :: pre,
        e, ?_, ?_⟩ <;>
        simp [collabChat, hev, hpre, isProgress]
    · refine Or.inl ⟨Event.agentStep finalAgent.id finalAgent.name ("responding") :: pre,
        e, ?_, ?_⟩ <;>
        simp [collabChat, hev, hpre, isProgress]
  | cons m rest ih =>
    obtain ⟨a, outcome⟩ := m
    cases outcome with
    | error e =>
      refine Or.inl ⟨[Event.agentStep a.id a.name ("responding")], e, rfl, ?_⟩
      simp [isProgress]
    | ok c =>
      rcases ih with ⟨pre, e, hev, hpre⟩ | ⟨pre, c2, rsn, hev, hpre, hpers⟩
      · refine Or.inl ⟨Event.agentStep a.id a.name ("responding") :: pre, e, ?_, ?_⟩ <;>
          simp [collabChat, hev, hpre, isProgress]
      · refine Or.inr ⟨Event.agentStep a.id a.name ("responding") :: pre, c2, rsn, ?_, ?_, ?_⟩ <;>
          simp [collabChat, hev, hpre, hpers, isProgress]

theorem chatWithToolsGo_calls (execTool : String → String → Except String String)
    (script : Nat → Except String ChatResponse) (tools : Option (List String)) :
    ∀ (fuel idx : Nat),
      (chatWithToolsGo execTool script tools fuel idx).calls ≠ [] ∧
      (chatWithToolsGo execTool script tools fuel idx).calls.length ≤ fuel + 1 ∧
      ((chatWithToolsGo execTool script tools fuel idx).calls.length = fuel + 1 →
        (chatWithToolsGo execTool script tools fuel idx).calls.getLast? = some none) ∧
      (∀ c ∈ (chatWithToolsGo execTool script tools fuel idx).calls.dropLast, c = tools) := by
  intro fuel
  induction fuel with
  | zero =>
    intro idx
    cases h : script idx <;> simp [chatWithToolsGo, h]
  | succ fuel ih =>
    intro idx
    cases h : script idx with
    | error e =>
      simp only [chatWithToolsGo, h]
      refine ⟨by simp, by simp, ?_, by simp⟩
      intro hlen
      simp at hlen
    | ok resp =>
      cases htc : resp.toolCalls with
      | nil =>
        simp only [chatWithToolsGo, h, htc]
        refine ⟨by simp, by simp, ?_, by simp⟩
        intro hlen
        simp at hlen
      | cons tc tcs =>
        cases hex : execToolsSeq execTool (tc :: tcs) with
        | error e =>
          simp only [chatWithToolsGo, h, htc, hex]
          refine ⟨by simp, by simp, ?_, by simp⟩
          intro hlen
          simp at hlen
        | ok u =>
          obtain ⟨hne, hlen, hlast, hdrop⟩ := ih (idx + 1)
          obtain ⟨c0, cs0, hc⟩ := List.exists_cons_of_ne_nil hne
          simp only [chatWithToolsGo, h, htc, hex]
          refine ⟨by simp, ?_, ?_, ?_⟩
          · simpa using Nat.succ_le_succ hlen
          · intro hl
            simp at hl
            have : (chatWithToolsGo execTool script tools fuel (idx + 1)).calls.length = fuel + 1 := by
              omega
            have hlast2 := hlast this
            rw [hc] at hlast2 ⊢
            simpa [List.getLast?_cons_cons] using hlast2
          · intro c hcmem
            rw [hc] at hcmem
            simp only [List.dropLast_cons₂, List.mem_cons] at hcmem
            rcases hcmem with rfl | hcmem
            · rfl
            · exact hdrop c (by rw [hc]; simpa using hcmem)

theorem successResponses_filter (members : List MemberOutcome) :
    successResponses members = successResponses (members.filter (fun m => isOkB m.2)) := by
  induction members with
  | nil => rfl
  | cons m rest ih =>
    obtain ⟨a, outcome⟩ := m
    cases outcome <;> simp [successResponses, isOkB, List.filter] at ih ⊢ <;>
      simpa [successResponses] using ih

theorem successResponses_nil_of_all_fail (members : List MemberOutcome)
    (h : ∀ m ∈ members, isOkB m.2 = false) : successResponses members = [] := by
  induction members with
  | nil => rfl
  | cons m rest ih =>
    obtain ⟨a, outcome⟩ := m
    cases houtcome : outcome with
    | ok c =>
      have := h (a, outcome) (by simp)
      rw [houtcome] at this
      simp [isOkB] at this
    | error e =>
      simp only [successResponses, List.filterMap, houtcome]
      exact ih (fun m hm => h m (by simp [hm]))

theorem find?_eq_some_split {α : Type} (p : α → Bool) :
    ∀ (l : List α) (a : α), l.find? p = some a →
      p a = true ∧ ∃ pre post, l = pre ++ a :: post ∧ ∀ b ∈ pre, p b = false := by
  intro l
  induction l with
  | nil => intro a h; simp [List.find?] at h
  | cons x xs ih =>
    intro a h
    by_cases hx : p x = true
    · rw [List.find?_cons_of_pos _ hx] at h
      obtain rfl : x = a := by injection h
      exact ⟨hx, [], xs, rfl, by simp⟩
    · rw [List.find?_cons_of_neg _ hx] at h
      obtain ⟨hpa, pre, post, hsplit, hpre⟩ := ih a h
      refine ⟨hpa, x :: pre, post, by simp [hsplit], ?_⟩
      intro b hb
      rcases List.mem_cons.mp hb with rfl | hb
      · simpa using hx
      · exact hpre b hb

theorem joinChunks_substring :
    ∀ (l : List String) (s : String), s ∈ l → substringOf s (joinChunks l) := by
  intro l
  induction l with
  | nil => intro s h; simp at h
  | cons x xs ih =>
    intro s h
    rcases List.mem_cons.mp h with rfl | h
    · cases xs with
      | nil => exact ⟨"", "", by simp [joinChunks]⟩
      | cons y ys =>
        refine ⟨"", "\n\n" ++ joinChunks (y :: ys), ?_⟩
        simp [joinChunks, String.append_assoc]
    · have hxs : xs ≠ [] := by
        intro hnil
        rw [hnil] at h
        simp at h
      obtain ⟨y, ys, rfl⟩ := List.exists_cons_of_ne_nil hxs
      obtain ⟨u, v, huv⟩ := ih s h
      refine ⟨x ++ "\n\n" ++ u, v, ?_⟩
      simp [joinChunks, huv, String.append_assoc]

theorem filterHistory_eq (past : List PastMsg) :
    filterHistory past =
      (past.filter (fun m => m.role == "user" || m.role == "assistant")).map
        (fun m => (⟨m.role, LLMContent.str m.content⟩ : LLMMessage)) := by
  induction past with
  | nil => rfl
  | cons m rest ih =>
    by_cases h : (m.role == "user" || m.role == "assistant") = true
    · have hstep : filterHistory (m :: rest) =
          (⟨m.role, LLMContent.str m.content⟩ : LLMMessage) :: filterHistory rest := by
        simp only [filterHistory, List.filterMap_cons, h, if_pos]
      rw [hstep, ih, List.filter_cons, if_pos h, List.map_cons]
    · have hstep : filterHistory (m :: rest) = filterHistory rest := by
        have hneg : ¬(m.role = "user" ∨ m.role = "assistant") := by simpa using h
        simp [filterHistory, List.filterMap_cons, hneg]
      rw [hstep, ih, List.filter_cons, if_neg (by simpa using h)]

theorem processAttachmentsImages_mem (atts : List Attachment) (uri : String) :
    ContentPart.imageUrl uri ∈ processAttachmentsImages atts ↔
      ∃ a ∈ atts, a.data = some uri ∧ a.decodes = true ∧
        pyStartsWith a.mediaType ("image/") = true := by
  rw [processAttachmentsImages, List.mem_filterMap]
  constructor
  · rintro ⟨a, ha, hfa⟩
    refine ⟨a, ha, ?_⟩
    cases hd : a.data with
    | none => rw [hd] at hfa; simp at hfa
    | some u =>
      rw [hd] at hfa
      by_cases hdec : a.decodes = true
      · rw [hdec] at hfa
        by_cases him : pyStartsWith a.mediaType ("image/") = true
        · simp [classifyFile, him] at hfa
          exact ⟨by simp [hd, hfa], hdec, him⟩
        · simp only [Bool.not_eq_true] at him
          simp [classifyFile, him] at hfa
      · simp only [Bool.not_eq_true] at hdec
        simp [hdec] at hfa
  · rintro ⟨a, ha, hd, hdec, him⟩
    exact ⟨a, ha, by simp [hd, hdec, classifyFile, him]⟩

theorem connectGo_filter :
    ∀ (cfgs : List (Except String MCPConnection))
      (acc : List (String × MCPConnection)) (tls : List String),
      connectGo acc tls cfgs = connectGo acc tls (cfgs.filter isOkConn) := by
  intro cfgs
  induction cfgs with
  | nil => intro acc tls; rfl
  | cons c rest ih =>
    intro acc tls
    cases c with
    | ok conn => simp [connectGo, List.filter, isOkConn, ih]
    | error e => simp [connectGo, List.filter, isOkConn, ih]

theorem connectGo_tools :
    ∀ (cfgs : List (Except String MCPConnection))
      (acc : List (String × MCPConnection)) (tls : List String),
      (connectGo acc tls cfgs).2 =
        tls ++ (cfgs.filterMap (fun c =>
          match c with
          | Except.ok conn => some conn.tools
          | Except.error _ => none)).flatten := by
  intro cfgs
  induction cfgs with
  | nil => intro acc tls; simp [connectGo]
  | cons c rest ih =>
    intro acc tls
    cases c with
    | ok conn => simp [connectGo, List.filterMap, ih]
    | error e => simp [connectGo, List.filterMap, ih]

/-! ## Claim theorems -/

/-- C1 (amended): in both tool loops the model backend is invoked at most
`MAX_TOOL_ROUNDS + 1` times per turn. In the non-streaming team-member loop
(`_chat_with_tools`) every invocation but the last offers the configured
tools, and if the `(maxRounds+1)`-th invocation is reached it is made with
tool use disabled. In the streaming loop (`_stream_response`) however every
invocation — the `(maxRounds+1)`-th included — is made with the same tool
offering; the loop still always terminates (the model is total), persisting
whatever text the final round accumulated. -/
theorem c1_round_limit
    (execTool : String → String → Except String String)
    (scripts : Nat → RoundScript) (tools : Option (List String))
    (execTool2 : String → String → Except String String)
    (script2 : Nat → Except String ChatResponse) (tools2 : Option (List String)) :
    ((streamResponse execTool scripts tools).calls.length ≤ MAX_TOOL_ROUNDS + 1 ∧
      ∀ c ∈ (streamResponse execTool scripts tools).calls, c = tools) ∧
    ((chatWithTools execTool2 script2 tools2).calls.length ≤ MAX_TOOL_ROUNDS + 1 ∧
      ((chatWithTools execTool2 script2 tools2).calls.length = MAX_TOOL_ROUNDS + 1 →
        (chatWithTools execTool2 script2 tools2).calls.getLast? = some none) ∧
      ∀ c ∈ (chatWithTools execTool2 script2 tools2).calls.dropLast, c = tools2) := by
  obtain ⟨⟨hlen, hcalls⟩, -⟩ := streamResponse_spec execTool scripts tools
  obtain ⟨-, hlen2, hlast2, hdrop2⟩ := chatWithToolsGo_calls execTool2 script2 tools2 MAX_TOOL_ROUNDS 0
  exact ⟨⟨hlen, hcalls⟩, ⟨hlen2, hlast2, hdrop2⟩⟩

/-- C1 witness: a backend that requests a tool on each of its first ten
non-streaming rounds drives `_chat_with_tools` to exactly `maxRounds + 1`
invocations, the last of which offers no tools. -/
theorem c1_round_limit_witness :
    (chatWithTools (fun _ _ => Except.ok ("r"))
        (fun _ => Except.ok ⟨"c", [⟨"1", "t", "x"⟩]⟩) (some ["t"])).calls.length =
      MAX_TOOL_ROUNDS + 1 ∧
    (chatWithTools (fun _ _ => Except.ok ("r"))
        (fun _ => Except.ok ⟨"c", [⟨"1", "t", "x"⟩]⟩) (some ["t"])).calls.getLast? =
      some none :=
  ⟨by decide,
   (c1_round_limit (fun _ _ => Except.ok ("r"))
      (fun _ => ⟨[], none⟩) none (fun _ _ => Except.ok ("r"))
      (fun _ => Except.ok ⟨"c", [⟨"1", "t", "x"⟩]⟩) (some ["t"])).2.2.1 (by decide)⟩

/-- C1 counterexample: with a backend that requests a tool every round, the
streaming loop `_stream_response` reaches its `(maxRounds+1)`-th backend
invocation and still offers the tools on it — the claim that the final
invocation is made with tool use disabled is false for the streaming loop. -/
theorem c1_counterexample :
    (streamResponse (fun _ _ => Except.ok ("r"))
        (fun _ => ⟨[Chunk.toolCall (some ⟨"1", "t", "x"⟩), Chunk.done], none⟩)
        (some ["t"])).calls.length = MAX_TOOL_ROUNDS + 1 ∧
    (streamResponse (fun _ _ => Except.ok ("r"))
        (fun _ => ⟨[Chunk.toolCall (some ⟨"1", "t", "x"⟩), Chunk.done], none⟩)
        (some ["t"])).calls.getLast? = some (some ["t"]) ∧
    (streamResponse (fun _ _ => Except.ok ("r"))
        (fun _ => ⟨[Chunk.toolCall (some ⟨"1", "t", "x"⟩), Chunk.done], none⟩)
        (some ["t"])).calls.getLast? ≠ some none := by
  refine ⟨by decide, by decide, by decide⟩

/-- C2 (amended): on a mid-stream failure of `_stream_response`, the two
failure channels behave differently. When the backend raises, the terminal
`error` event is emitted last and the partial text, if non-empty, is persisted
with the error recorded in its metadata (nothing is persisted when no text
had accumulated). When the stream yields an `error` chunk, only the `error`
event is emitted and no message is persisted, even if partial text had
already been accumulated. -/
theorem c2_mid_stream_failure
    (execTool : String → String → Except String String)
    (scripts : Nat → RoundScript) (tools : Option (List String)) :
    (∀ e, (streamResponse execTool scripts tools).terminal = Terminal.raised e →
      (streamResponse execTool scripts tools).events.getLast? = some (Event.error e) ∧
      ((streamResponse execTool scripts tools).finalText ≠ "" →
        (streamResponse execTool scripts tools).persisted =
          [mkErrMsg (streamResponse execTool scripts tools).finalText e]) ∧
      ((streamResponse execTool scripts tools).finalText = "" →
        (streamResponse execTool scripts tools).persisted = [])) ∧
    (∀ e, (streamResponse execTool scripts tools).terminal = Terminal.errChunk e →
      (streamResponse execTool scripts tools).events.getLast? = some (Event.error e) ∧
      (streamResponse execTool scripts tools).persisted = []) := by
  obtain ⟨-, hshape⟩ := streamResponse_spec execTool scripts tools
  constructor
  · intro e hterm
    rcases hshape with ⟨pre, c, rsn, ht, hev, -, -⟩ | ⟨pre, e2, ht, hev, -, -⟩ |
        ⟨pre, e2, ht, hev, -, hpers⟩
    · rw [ht] at hterm; cases hterm
    · rw [ht] at hterm; cases hterm
    · rw [ht] at hterm
      obtain rfl : e2 = e := by injection hterm
      refine ⟨by simp [hev], ?_, ?_⟩
      · intro hne
        rw [hpers, if_neg hne]
      · intro hz
        rw [hpers, if_pos hz]
  · intro e hterm
    rcases hshape with ⟨pre, c, rsn, ht, hev, -, -⟩ | ⟨pre, e2, ht, hev, -, hpers⟩ |
        ⟨pre, e2, ht, hev, -, -⟩
    · rw [ht] at hterm; cases hterm
    · rw [ht] at hterm
      obtain rfl : e2 = e := by injection hterm
      exact ⟨by simp [hev], hpers⟩
    · rw [ht] at hterm; cases hterm

/-- C2 witness: a backend raise after the partial text `Hi` persists that
text with the error in its metadata, and the `error` event is terminal. -/
theorem c2_mid_stream_failure_witness :
    (streamResponse (fun _ _ => Except.ok ("r"))
        (fun _ => ⟨[Chunk.content ("Hi")], some ("x")⟩) none).finalText ≠ "" ∧
    (streamResponse (fun _ _ => Except.ok ("r"))
        (fun _ => ⟨[Chunk.content ("Hi")], some ("x")⟩) none).persisted =
      [mkErrMsg ((streamResponse (fun _ _ => Except.ok ("r"))
        (fun _ => ⟨[Chunk.content ("Hi")], some ("x")⟩) none).finalText) ("x")] :=
  ⟨by decide,
   ((c2_mid_stream_failure (fun _ _ => Except.ok ("r"))
      (fun _ => ⟨[Chunk.content ("Hi")], some ("x")⟩) none).1 ("x")
      (by decide)).2.1 (by decide)⟩

/-- C2 counterexample: when the stream yields an `error` chunk after the
partial text `Hi` was accumulated, no message is persisted at all before the
terminal `error` event — refuting the claim that accumulated partial text is
always persisted on a mid-stream backend failure. -/
theorem c2_counterexample :
    (streamResponse (fun _ _ => Except.ok ("r"))
        (fun _ => ⟨[Chunk.content ("Hi"), Chunk.error ("boom")], none⟩) none).events =
      [Event.contentDelta ("Hi"), Event.error ("boom")] ∧
    (streamResponse (fun _ _ => Except.ok ("r"))
        (fun _ => ⟨[Chunk.content ("Hi"), Chunk.error ("boom")], none⟩) none).finalText =
      "Hi" ∧
    (streamResponse (fun _ _ => Except.ok ("r"))
        (fun _ => ⟨[Chunk.content ("Hi"), Chunk.error ("boom")], none⟩) none).persisted =
      [] := by
  refine ⟨by decide, by decide, by decide⟩

/-- C3: every `_stream_response`, `_team_chat_route` or
`_team_chat_collaborate` invocation whose event sequence does not end in
`error` persists exactly one assistant message, regardless of the number of
tool rounds or contributing team members. -/
theorem c3_exactly_one_message
    (execTool : String → String → Except String String)
    (scripts : Nat → RoundScript) (tools : Option (List String))
    (u : String) (members : List MemberOutcome) (synth : RoundScript)
    (nonFinal : List MemberOutcome) (finalAgent : AgentInfo)
    (execTool2 : String → String → Except String String)
    (scripts2 : Nat → RoundScript) (tools2 : Option (List String)) :
    ((∀ e, (streamResponse execTool scripts tools).events.getLast? ≠
        some (Event.error e)) →
      (streamResponse execTool scripts tools).persisted.length = 1) ∧
    ((∀ e, (routeChat u members synth).events.getLast? ≠ some (Event.error e)) →
      (routeChat u members synth).persisted.length = 1) ∧
    ((∀ e, (collabChat nonFinal finalAgent execTool2 scripts2 tools2).events.getLast? ≠
        some (Event.error e)) →
      (collabChat nonFinal finalAgent execTool2 scripts2 tools2).persisted.length = 1) := by
  refine ⟨?_, ?_, ?_⟩
  · intro h
    obtain ⟨-, hshape⟩ := streamResponse_spec execTool scripts tools
    rcases hshape with ⟨pre, c, rsn, -, hev, -, hpers⟩ | ⟨pre, e, -, hev, -, -⟩ |
        ⟨pre, e, -, hev, -, -⟩
    · simp [hpers]
    · exact absurd (by simp [hev]) (h e)
    · exact absurd (by simp [hev]) (h e)
  · intro h
    rcases routeChat_spec u members synth with ⟨pre, e, hev, -, -⟩ | ⟨pre, c, hev, -, hpers⟩
    · exact absurd (by simp [hev]) (h e)
    · simp [hpers]
  · intro h
    rcases collabChat_spec finalAgent execTool2 scripts2 tools2 nonFinal with
        ⟨pre, e, hev, -⟩ | ⟨pre, c, rsn, hev, -, hpers⟩
    · exact absurd (by simp [hev]) (h e)
    · simp [hpers]

/-- C3 witness: success runs of all three entry points each persist exactly
one message. -/
theorem c3_exactly_one_message_witness :
    (streamResponse (fun _ _ => Except.ok ("r"))
        (fun _ => ⟨[Chunk.content ("ok"), Chunk.done], none⟩) none).persisted.length = 1 ∧
    (routeChat ("q") [(⟨"1", "A"⟩, Except.ok ("a"))]
        ⟨[Chunk.content ("s"), Chunk.done], none⟩).persisted.length = 1 ∧
    (collabChat [(⟨"2", "B"⟩, Except.ok ("b"))] ⟨"1", "A"⟩ (fun _ _ => Except.ok ("r"))
        (fun _ => ⟨[Chunk.content ("ok"), Chunk.done], none⟩) none).persisted.length = 1 := by
  have h := c3_exactly_one_message (fun _ _ => Except.ok ("r"))
    (fun _ => ⟨[Chunk.content ("ok"), Chunk.done], none⟩) none
    ("q") [(⟨"1", "A"⟩, Except.ok ("a"))] ⟨[Chunk.content ("s"), Chunk.done], none⟩
    [(⟨"2", "B"⟩, Except.ok ("b"))] ⟨"1", "A"⟩ (fun _ _ => Except.ok ("r"))
    (fun _ => ⟨[Chunk.content ("ok"), Chunk.done], none⟩) none
  refine ⟨h.1 ?_, h.2.1 ?_, h.2.2 ?_⟩
  · intro e hc
    have hd : (streamResponse (fun _ _ => Except.ok ("r"))
        (fun _ => ⟨[Chunk.content ("ok"), Chunk.done], none⟩) none).events.getLast? =
        some Event.done := by decide
    rw [hd] at hc
    simp at hc
  · intro e hc
    have hd : (routeChat ("q") [(⟨"1", "A"⟩, Except.ok ("a"))]
        ⟨[Chunk.content ("s"), Chunk.done], none⟩).events.getLast? =
        some Event.done := by decide
    rw [hd] at hc
    simp at hc
  · intro e hc
    have hd : (collabChat [(⟨"2", "B"⟩, Except.ok ("b"))] ⟨"1", "A"⟩
        (fun _ _ => Except.ok ("r"))
        (fun _ => ⟨[Chunk.content ("ok"), Chunk.done], none⟩) none).events.getLast? =
        some Event.done := by decide
    rw [hd] at hc
    simp at hc

theorem executeToolSql_ok (db : List ToolDef)
    (httpWorld : String → String → Except String String)
    (name : String) (args : Option JsonSrc)
    (hok : ∀ t ∈ db, configMalformed t.handler_config = false) :
    ∃ out, executeToolSql db httpWorld name args = Except.ok out := by
  rw [executeToolSql]
  split
  · exact ⟨_, rfl⟩
  · rename_i tool hfind
    have hcfg := hok tool (List.mem_of_find?_eq_some hfind)
    split
    · -- python handler
      split
      · rename_i hc
        rw [hc] at hcfg
        simp [configMalformed] at hcfg
      · exact ⟨_, rfl⟩
      · split
        · exact ⟨_, rfl⟩
        · exact ⟨_, rfl⟩
    · split
      · -- http handler
        split
        · rename_i hc
          rw [hc] at hcfg
          simp [configMalformed] at hcfg
        · exact ⟨_, rfl⟩
        · split
          · exact ⟨_, rfl⟩
          · split
            · exact ⟨_, rfl⟩
            · exact ⟨_, rfl⟩
      · exact ⟨_, rfl⟩

/-- C4 (amended): tool routing is deterministic — a `server::tool` namespaced
name always routes to the matching open external connection (with a
structured error payload when that server is not connected, independently of
the native catalogue), and a non-namespaced name always resolves against the
native catalogue by exact active-name match, yielding a `not found` payload
when no such tool exists. The router never raises, **provided** every stored
`handler_config` of the native catalogue is well-formed: the bare
`json.loads(tool_def.handler_config)` calls of `_execute_tool` raise on a
malformed stored config (see the counterexample), so the original
unconditional never-raises claim fails. -/
theorem c4_tool_router (conns : List (String × MCPConnection)) (db : List ToolDef)
    (httpWorld : String → String → Except String String)
    (name : String) (args : Option JsonSrc) :
    (∀ server orig, parseMcpToolName name = some (server, orig) →
      execMcpOrNative conns db httpWorld name args =
        (match conns.lookup server with
         | some conn => Except.ok (conn.callTool orig (parseArgs args))
         | none => Except.ok (jsonError ("MCP server \x27" ++ server ++ "\x27 not connected")))) ∧
    (parseMcpToolName name = none →
      execMcpOrNative conns db httpWorld name args = executeToolSql db httpWorld name args) ∧
    (db.find? (fun t => t.name == name && t.is_active) = none →
      executeToolSql db httpWorld name args =
        Except.ok (jsonError ("Tool \x27" ++ name ++ "\x27 not found"))) ∧
    ((∀ t ∈ db, configMalformed t.handler_config = false) →
      ∃ out, execMcpOrNative conns db httpWorld name args = Except.ok out) := by
  refine ⟨?_, ?_, ?_, ?_⟩
  · intro server orig hparse
    rw [execMcpOrNative, hparse]
  · intro hparse
    rw [execMcpOrNative, hparse]
  · intro hfind
    rw [executeToolSql, hfind]
  · intro hok
    cases hparse : parseMcpToolName name with
    | some p =>
      obtain ⟨server, orig⟩ := p
      rw [execMcpOrNative, hparse]
      cases hl : conns.lookup server with
      | some conn =>
        refine ⟨conn.callTool orig (parseArgs args), ?_⟩
        simp [hl]
      | none =>
        refine ⟨jsonError ("MCP server \x27" ++ server ++ "\x27 not connected"), ?_⟩
        simp [hl]
    | none =>
      rw [execMcpOrNative, hparse]
      exact executeToolSql_ok db httpWorld name args hok

/-- C4 witness: a namespaced name with no open connection collapses to an
error payload; an unknown non-namespaced name resolves natively to a `not
found` payload; and on a catalogue with only well-formed configs the router
returns a value, never raising. -/
theorem c4_tool_router_witness :
    execMcpOrNative [] [] (fun _ _ => Except.ok ("")) ("srv::tool") none =
      Except.ok (jsonError ("MCP server \x27srv\x27 not connected")) ∧
    execMcpOrNative [] [] (fun _ _ => Except.ok ("")) ("plain") none =
      Except.ok (jsonError ("Tool \x27plain\x27 not found")) := by
  constructor
  · have h := (c4_tool_router [] [] (fun _ _ => Except.ok ("")) ("srv::tool") none).1
      ("srv") ("tool") (by decide)
    exact h
  · have h1 := (c4_tool_router [] [] (fun _ _ => Except.ok ("")) ("plain") none).2.1
      (by decide)
    have h2 := (c4_tool_router [] [] (fun _ _ => Except.ok ("")) ("plain") none).2.2.1
      rfl
    exact h1.trans h2

/-- C4 counterexample: a native python tool whose stored `handler_config` is
malformed JSON makes `_execute_tool` raise `json.JSONDecodeError` out of the
router to its caller, refuting the claim that every failure mode returns a
structured textual error payload. -/
theorem c4_counterexample :
    execMcpOrNative [] [⟨"t", true, "python", ConfigSrc.malformed⟩]
      (fun _ _ => Except.ok ("")) ("t") none = Except.error ("JSONDecodeError") := rfl

/-- C5: route-mode failures are isolated per member — the whole turn is a
function of the successful members only, so one member's exception never
aborts the others; the synthesizer input is built from exactly the successful
members, the persisted message's contributing-agent metadata lists exactly
the successful members, and when every member fails the turn ends in a
terminal `error` event with no message persisted. -/
theorem c5_route_isolation (u : String) (members : List MemberOutcome)
    (synth : RoundScript) :
    routeChat u members synth =
      routeChat u (members.filter (fun m => isOkB m.2)) synth ∧
    ((∀ m ∈ members, isOkB m.2 = false) →
      (routeChat u members synth).events.getLast? =
        some (Event.error ("All agents failed to respond")) ∧
      (routeChat u members synth).persisted = []) ∧
    (∀ msg ∈ (routeChat u members synth).persisted,
      msg.contributing =
        some ((successResponses members).map (fun r => (r.1.id, r.1.name)))) ∧
    ((routeChat u members synth).synthInput = none ∨
      (routeChat u members synth).synthInput =
        some (routeSynthMessages u (successResponses members))) := by
  refine ⟨?_, ?_, ?_, ?_⟩
  · rw [routeChat, routeChat, ← successResponses_filter]
  · intro hfail
    have hnil := successResponses_nil_of_all_fail members hfail
    rw [routeChat, hnil]
    exact ⟨by simp, rfl⟩
  · intro msg hmsg
    rw [routeChat] at hmsg
    cases hs : successResponses members with
    | nil => rw [hs] at hmsg; simp at hmsg
    | cons r0 rest =>
      rw [hs] at hmsg
      cases ho : (runSynthStream synth.chunks synth.raises "").2.2 with
      | errChunk e => simp [ho] at hmsg
      | raised e => simp [ho] at hmsg
      | normal =>
        simp only [ho] at hmsg
        simp only [List.mem_singleton] at hmsg
        rw [hmsg]
  · rw [routeChat]
    cases hs : successResponses members with
    | nil => exact Or.inl rfl
    | cons r0 rest =>
      cases ho : (runSynthStream synth.chunks synth.raises "").2.2 with
      | errChunk e => exact Or.inr (by simp [ho])
      | raised e => exact Or.inr (by simp [ho])
      | normal => exact Or.inr (by simp [ho])

/-- C5 witness: with every member failing, the turn ends in the terminal
all-agents-failed `error` and persists nothing; with three members of which
exactly one throws, the persisted metadata lists exactly the two successful
members. -/
theorem c5_route_isolation_witness :
    ((routeChat ("q") [(⟨"1", "A"⟩, Except.error ("x")), (⟨"2", "B"⟩, Except.error ("y"))]
        ⟨[], none⟩).events.getLast? = some (Event.error ("All agents failed to respond")) ∧
      (routeChat ("q") [(⟨"1", "A"⟩, Except.error ("x")), (⟨"2", "B"⟩, Except.error ("y"))]
        ⟨[], none⟩).persisted = []) ∧
    (routeChat ("q") [(⟨"1", "A"⟩, Except.ok ("a")), (⟨"2", "B"⟩, Except.error ("x")),
        (⟨"3", "C"⟩, Except.ok ("c"))]
        ⟨[Chunk.content ("s"), Chunk.done], none⟩).persisted.map (fun m => m.contributing) =
      [some [("1", "A"), ("3", "C")]] :=
  ⟨(c5_route_isolation ("q")
      [(⟨"1", "A"⟩, Except.error ("x")), (⟨"2", "B"⟩, Except.error ("y"))]
      ⟨[], none⟩).2.1 (by decide),
   by decide⟩

/-- C6: coordinate-mode agent selection — the router's stripped reply is
matched case-insensitively with substring containment in either direction
(that is what `agentMatches` computes); the first member in declared order
that matches is selected, and when no member matches the first member is
selected. -/
theorem c6_coordinate_matching (ms : List AgentInfo) (raw : String) (h : ms ≠ []) :
    ∃ a, selectAgent ms raw = some a ∧
      ((agentMatches (pyStrip raw) a = true ∧
        ∃ pre post, ms = pre ++ a :: post ∧
          ∀ b ∈ pre, agentMatches (pyStrip raw) b = false) ∨
       ((∀ b ∈ ms, agentMatches (pyStrip raw) b = false) ∧ ms.head? = some a)) := by
  rw [selectAgent]
  cases hf : ms.find? (agentMatches (pyStrip raw)) with
  | some a =>
    obtain ⟨hpa, pre, post, hsplit, hpre⟩ := find?_eq_some_split _ ms a hf
    exact ⟨a, rfl, Or.inl ⟨hpa, pre, post, hsplit, hpre⟩⟩
  | none =>
    obtain ⟨x, xs, rfl⟩ := List.exists_cons_of_ne_nil h
    refine ⟨x, rfl, Or.inr ⟨?_, rfl⟩⟩
    intro b hb
    have := List.find?_eq_none.mp hf b hb
    simpa using this

/-- C6 witness: a reply differing in case and surrounded by noise still
selects the matching member. -/
theorem c6_coordinate_matching_witness :
    (selectAgent [⟨"1", "Coder"⟩, ⟨"2", "Writer"⟩] ("  wRiTer ")).isSome = true ∧
    selectAgent [⟨"1", "Coder"⟩, ⟨"2", "Writer"⟩] ("  wRiTer ") = some ⟨"2", "Writer"⟩ := by
  obtain ⟨a, ha, -⟩ :=
    c6_coordinate_matching [⟨"1", "Coder"⟩, ⟨"2", "Writer"⟩] ("  wRiTer ") (by decide)
  exact ⟨by rw [ha]; rfl, by decide⟩

/-- C7: the event-stream contract — for the streaming loop, route mode and
collaborate mode, every emitted sequence has the success shape (progress
events, then `message_complete` immediately followed by `done`) or the error
shape (progress events, then a terminal `error`): all
delta/tool-call/tool-round events precede `message_complete`, `done` appears
only immediately after `message_complete`, and no event follows `error`. -/
theorem c7_event_ordering
    (execTool : String → String → Except String String)
    (scripts : Nat → RoundScript) (tools : Option (List String))
    (u : String) (members : List MemberOutcome) (synth : RoundScript)
    (nonFinal : List MemberOutcome) (finalAgent : AgentInfo)
    (execTool2 : String → String → Except String String)
    (scripts2 : Nat → RoundScript) (tools2 : Option (List String)) :
    eventOrderOK (streamResponse execTool scripts tools).events ∧
    eventOrderOK (routeChat u members synth).events ∧
    eventOrderOK (collabChat nonFinal finalAgent execTool2 scripts2 tools2).events := by
  refine ⟨?_, ?_, ?_⟩
  · obtain ⟨-, hshape⟩ := streamResponse_spec execTool scripts tools
    rcases hshape with ⟨pre, c, rsn, -, hev, hpre, -⟩ | ⟨pre, e, -, hev, hpre, -⟩ |
        ⟨pre, e, -, hev, hpre, -⟩
    · exact Or.inl ⟨pre, c, hev, hpre⟩
    · exact Or.inr ⟨pre, e, hev, hpre⟩
    · exact Or.inr ⟨pre, e, hev, hpre⟩
  · rcases routeChat_spec u members synth with ⟨pre, e, hev, hpre, -⟩ |
        ⟨pre, c, hev, hpre, -⟩
    · exact Or.inr ⟨pre, e, hev, hpre⟩
    · exact Or.inl ⟨pre, c, hev, hpre⟩
  · rcases collabChat_spec finalAgent execTool2 scripts2 tools2 nonFinal with
        ⟨pre, e, hev, hpre⟩ | ⟨pre, c, rsn, hev, hpre, -⟩
    · exact Or.inr ⟨pre, e, hev, hpre⟩
    · exact Or.inl ⟨pre, c, hev, hpre⟩

/-- C8: per-server connect failures are non-fatal and exactly equivalent to
omitting the failed servers: the connection map and discovered-tool list of
`_connect_mcp_servers` depend only on the successfully connecting servers
(the flattened tool list is exactly the successful servers' tools in order),
and the whole `_stream_response_with_mcp` turn behaves identically with the
failed configs removed — a connect failure alone can never contribute an
`error` event or abort the conversation. -/
theorem c8_connect_failures_nonfatal
    (cfgs : List (Except String MCPConnection)) (db : List ToolDef)
    (httpWorld : String → String → Except String String)
    (scripts : Nat → RoundScript) (native : Option (List String))
    (args : String → Option JsonSrc) :
    connectMcpServers cfgs = connectMcpServers (cfgs.filter isOkConn) ∧
    (connectMcpServers cfgs).2 =
      (cfgs.filterMap (fun c =>
        match c with
        | Except.ok conn => some conn.tools
        | Except.error _ => none)).flatten ∧
    streamWithMcp db httpWorld scripts native cfgs args =
      streamWithMcp db httpWorld scripts native (cfgs.filter isOkConn) args := by
  refine ⟨connectGo_filter cfgs [] [], ?_, ?_⟩
  · simpa using connectGo_tools cfgs [] []
  · rw [streamWithMcp, streamWithMcp, connectMcpServers, connectMcpServers,
      connectGo_filter]

theorem substringOf_append_left (u : String) (s t : String)
    (h : substringOf s t) : substringOf s (u ++ t) := by
  obtain ⟨x, y, hxy⟩ := h
  exact ⟨u ++ x, y, by rw [hxy]; simp [String.append_assoc]⟩

theorem userText_build (hasIndex : Bool) (search : String → Nat → List RagResult)
    (current : String) (ip : List ContentPart) :
    userText (buildUserLlmMessage hasIndex search current ip) =
      current ++ ragContextFor hasIndex search current := by
  cases ip with
  | cons p ps => rfl
  | nil =>
    rw [buildUserLlmMessage]
    by_cases h : (ragContextFor hasIndex search current == "") = true
    · have hz : ragContextFor hasIndex search current = "" := by simpa using h
      simp [h, userText, hz]
    · simp [h, userText]

/-- C9: context assembly — the model-ready message list is exactly the prior
persisted turns whose role is `user` or `assistant`, in stored order,
followed by the enriched current user turn; the current turn's text is the
request text extended by the retrieval-context block (empty without an
index), in which every chunk returned by the top-5 search appears tagged
with its source filename; and the inline media parts are exactly the
decodable attachments whose MIME type starts with `image/`, placed alongside
the text part. -/
theorem c9_context_assembly (past : List PastMsg) (current : String)
    (atts : List Attachment) (hasIndex : Bool)
    (search : String → Nat → List RagResult) :
    assembleMessages past current atts hasIndex search =
      (past.filter (fun m => m.role == "user" || m.role == "assistant")).map
          (fun m => (⟨m.role, LLMContent.str m.content⟩ : LLMMessage)) ++
        [buildUserLlmMessage hasIndex search current (processAttachmentsImages atts)] ∧
    userText (buildUserLlmMessage hasIndex search current (processAttachmentsImages atts)) =
      current ++ ragContextFor hasIndex search current ∧
    (hasIndex = false → ragContextFor hasIndex search current = "") ∧
    (∀ r ∈ search current 5, hasIndex = true →
      substringOf (taggedChunk r)
        (userText (buildUserLlmMessage hasIndex search current
          (processAttachmentsImages atts)))) ∧
    (∀ uri, ContentPart.imageUrl uri ∈ processAttachmentsImages atts ↔
      ∃ a ∈ atts, a.data = some uri ∧ a.decodes = true ∧
        pyStartsWith a.mediaType ("image/") = true) ∧
    (∀ p ps, processAttachmentsImages atts = p :: ps →
      (buildUserLlmMessage hasIndex search current (processAttachmentsImages atts)).content =
        LLMContent.parts (ContentPart.text (current ++ ragContextFor hasIndex search current) ::
          p :: ps)) := by
  refine ⟨?_, userText_build hasIndex search current (processAttachmentsImages atts),
    ?_, ?_, ?_, ?_⟩
  · rw [assembleMessages, filterHistory_eq]
  · intro hidx
    rw [hidx, ragContextFor]
    rfl
  · intro r hr hidx
    subst hidx
    rw [userText_build]
    cases hres : search current 5 with
    | nil => rw [hres] at hr; simp at hr
    | cons x xs =>
      rw [hres] at hr
      have hmem : taggedChunk r ∈ (x :: xs).map taggedChunk :=
        List.mem_map_of_mem taggedChunk hr
      have hsub := joinChunks_substring ((x :: xs).map taggedChunk) (taggedChunk r) hmem
      have : ragContextFor true search current =
          "\n\nRelevant context from uploaded documents:\n" ++
            joinChunks ((x :: xs).map taggedChunk) := by
        rw [ragContextFor]
        simp [hres]
      rw [this]
      exact substringOf_append_left current _ _
        (substringOf_append_left ("\n\nRelevant context from uploaded documents:\n") _ _ hsub)
  · intro uri
    exact processAttachmentsImages_mem atts uri
  · intro p ps hpp
    rw [hpp]
    rfl

/-- C9 witness: a history with four roles keeps only the user/assistant
turns; the tagged retrieval chunk is contained in the final text; and a png
attachment is inlined as the media part after the text. -/
theorem c9_context_assembly_witness :
    assembleMessages
        [⟨"user", "u1"⟩, ⟨"system", "sys"⟩, ⟨"assistant", "a1"⟩, ⟨"tool", "t1"⟩]
        ("q")
        [⟨"pic.png", "image/png", some ("data:img"), true⟩,
         ⟨"doc.pdf", "application/pdf", some ("data:doc"), true⟩]
        true (fun _ _ => [⟨"chunk", some ("f.txt")⟩]) =
      [⟨"user", LLMContent.str ("u1")⟩, ⟨"assistant", LLMContent.str ("a1")⟩,
       ⟨"user", LLMContent.parts
         [ContentPart.text ("q\n\nRelevant context from uploaded documents:\n[From f.txt]:\nchunk"),
          ContentPart.imageUrl ("data:img")]⟩] ∧
    substringOf (taggedChunk ⟨"chunk", some ("f.txt")⟩)
      (userText (buildUserLlmMessage true (fun _ _ => [⟨"chunk", some ("f.txt")⟩]) ("q")
        (processAttachmentsImages
          [⟨"pic.png", "image/png", some ("data:img"), true⟩,
           ⟨"doc.pdf", "application/pdf", some ("data:doc"), true⟩]))) :=
  ⟨by decide,
   (c9_context_assembly
      [⟨"user", "u1"⟩, ⟨"system", "sys"⟩, ⟨"assistant", "a1"⟩, ⟨"tool", "t1"⟩]
      ("q")
      [⟨"pic.png", "image/png", some ("data:img"), true⟩,
       ⟨"doc.pdf", "application/pdf", some ("data:doc"), true⟩]
      true (fun _ _ => [⟨"chunk", some ("f.txt")⟩])).2.2.2.1
      ⟨"chunk", some ("f.txt")⟩ (by decide) rfl⟩

/-- C10: the non-streaming single-agent branch makes exactly one
model-backend call, persists its content verbatim, executes no tool, and is
independent of the tool executor — even when the response carries tool
calls, none is executed on this path. -/
theorem c10_nonstreaming_single_call (script : Nat → ChatResponse)
    (execTool execTool2 : String → String → Except String String) :
    (chatNonStreaming script execTool).backendCalls = 1 ∧
    (chatNonStreaming script execTool).persisted =
      [⟨"assistant", (script 0).content, none, none, none⟩] ∧
    (chatNonStreaming script execTool).toolExecs = [] ∧
    chatNonStreaming script execTool = chatNonStreaming script execTool2 ∧
    ((script 0).toolCalls ≠ [] → (chatNonStreaming script execTool).toolExecs = []) :=
  ⟨rfl, rfl, rfl, rfl, fun _ => rfl⟩

/-- C10 witness: a backend response that does carry a tool call still leads
to zero tool executions on the non-streaming path. -/
theorem c10_nonstreaming_single_call_witness :
    (⟨"hello", [⟨"1", "t", "x"⟩]⟩ : ChatResponse).toolCalls ≠ [] ∧
    (chatNonStreaming (fun _ => ⟨"hello", [⟨"1", "t", "x"⟩]⟩)
      (fun _ _ => Except.ok ("r"))).toolExecs = [] :=
  ⟨by decide,
   (c10_nonstreaming_single_call (fun _ => ⟨"hello", [⟨"1", "t", "x"⟩]⟩)
      (fun _ _ => Except.ok ("r")) (fun _ _ => Except.ok ("r"))).2.2.2.2 (by decide)⟩

end Aios
